/-
Verification of the dev-tools-installer repository
(cmd/installer/main.go, internal/config/config.go, internal/installer/installer.go).

The Go code is shallowly embedded: strings become `List Char` (wrapped back
into `String` at the interface), the regular expressions of `extractVersion`
become executable matchers specialised to the six concrete patterns of the
source, and the process/file-system world is an explicit oracle record
(`ExecEnv`).  Each definition carries a comment naming the Go function or
line it embeds.
-/
import Mathlib

namespace DevToolsInstaller

/-! ## Character classes and basic string helpers -/

/-- Go `unicode.IsSpace` restricted to the Latin-1 range (the only inputs the
program ever sees are ASCII command outputs): `\t \n \v \f \r ' '` plus
U+0085 and U+00A0. -/
def goIsSpace (c : Char) : Bool :=
  c = '\t' ∨ c = '\n' ∨ c = '\x0b' ∨ c = '\x0c' ∨ c = '\r' ∨ c = ' ' ∨
  c = '\x85' ∨ c = '\xa0'

/-- RE2 character class `\s`, i.e. `[\t\n\f\r ]` (note: no vertical tab). -/
def reIsSpace (c : Char) : Bool :=
  c = '\t' ∨ c = '\n' ∨ c = '\x0c' ∨ c = '\r' ∨ c = ' '

/-- Go `strings.TrimSpace`: drop leading and trailing white space. -/
def goTrimSpace (l : List Char) : List Char :=
  ((l.dropWhile goIsSpace).reverse.dropWhile goIsSpace).reverse

/-- Go `strings.TrimPrefix`: drop `pre` when it is a prefix, else unchanged. -/
def goTrimPre (l pre : List Char) : List Char :=
  if pre.isPrefixOf l then l.drop pre.length else l

/-- Go `strings.Contains`: `sub` occurs as a contiguous substring of `l`. -/
def containsSeq (sub : List Char) : List Char → Bool
  | [] => sub.isPrefixOf []
  | c :: t => sub.isPrefixOf (c :: t) || containsSeq sub t

/-! ## The six regular expressions of `extractVersion`

Each Go pattern is embedded as a matcher `... At : List Char → Option (List Char)`
that attempts to match the pattern at the head of the given text and returns
what Go would report for that match (the full match, or the first capture
group, as the corresponding branch of `extractVersion` uses).  All six
patterns are free of genuine non-determinism: every `+` repetition is over a
character class disjoint from the character the pattern requires next
(digits vs `.`, `\s` vs `v`/`-`), so maximal munch is exactly RE2's
leftmost-first semantics.  `findRe` then scans left to right for the first
position where the matcher fires, which is `FindString`/`FindStringSubmatch`
leftmost behaviour. -/

/-- A maximal nonempty run of decimal digits (`\d+`), with the rest. -/
def digitsAt (l : List Char) : Option (List Char × List Char) :=
  let d := l.takeWhile Char.isDigit
  if d.isEmpty then none else some (d, l.dropWhile Char.isDigit)

/-- `\d+\.\d+\.\d+` matched at the head of `l` (pattern 4 of the source). -/
def semverAt (l : List Char) : Option (List Char) :=
  match digitsAt l with
  | none => none
  | some (d1, r1) =>
    match r1 with
    | '.' :: r2 =>
      match digitsAt r2 with
      | none => none
      | some (d2, r3) =>
        match r3 with
        | '.' :: r4 =>
          match digitsAt r4 with
          | none => none
          | some (d3, _) => some (d1 ++ '.' :: (d2 ++ '.' :: d3))
        | _ => none
    | _ => none

/-- `v\d+\.\d+\.\d+` matched at the head of `l` (pattern 3, case sensitive). -/
def vSemverAt (l : List Char) : Option (List Char) :=
  if ['v'].isPrefixOf l then (semverAt (l.drop 1)).map (fun m => 'v' :: m)
  else none

/-- `go\d+\.\d+\.\d+` matched at the head of `l` (pattern 5). -/
def goSemverAt (l : List Char) : Option (List Char) :=
  if ['g', 'o'].isPrefixOf l then
    (semverAt (l.drop 2)).map (fun m => 'g' :: 'o' :: m)
  else none

/-- `Version: (v\d+\.\d+\.\d+)` matched at the head of `l` (pattern 6);
returns the capture group, i.e. the `v...` part after the 9-character
literal `Version: `. -/
def versionColonAt (l : List Char) : Option (List Char) :=
  if ['V', 'e', 'r', 's', 'i', 'o', 'n', ':', ' '].isPrefixOf l then
    vSemverAt (l.drop 9)
  else none

/-- Case-insensitive literal match: `lit` is given in lower case; returns the
actually consumed characters and the rest.  Embeds RE2 `(?i)` literals on
ASCII input. -/
def takeLitCi : List Char → List Char → Option (List Char × List Char)
  | [], l => some ([], l)
  | _ :: _, [] => none
  | p :: ps, c :: cs =>
    if c.toLower = p then
      match takeLitCi ps cs with
      | some (m, r) => some (c :: m, r)
      | none => none
    else none

/-- `(?i)version\s+(v\d+\.\d+\.\d+)` matched at the head of `l` (pattern 1);
returns the capture group (the `v`, in its original case, plus the semver). -/
def versionVGroupAt (l : List Char) : Option (List Char) :=
  match takeLitCi ['v', 'e', 'r', 's', 'i', 'o', 'n'] l with
  | none => none
  | some (_, r1) =>
    if (r1.takeWhile reIsSpace).isEmpty then none
    else
      match r1.dropWhile reIsSpace with
      | [] => none
      | c :: rest =>
        if c.toLower = 'v' then (semverAt rest).map (fun m => c :: m)
        else none

/-- `(?i)amass\s+-\s+v\d+\.\d+\.\d+` matched at the head of `l` (pattern 2);
returns the full matched text, as `FindStringSubmatch` would at index 0. -/
def amassAt (l : List Char) : Option (List Char) :=
  match takeLitCi ['a', 'm', 'a', 's', 's'] l with
  | none => none
  | some (m1, r1) =>
    let sp1 := r1.takeWhile reIsSpace
    if sp1.isEmpty then none
    else
      match r1.dropWhile reIsSpace with
      | '-' :: r2 =>
        let sp2 := r2.takeWhile reIsSpace
        if sp2.isEmpty then none
        else
          match r2.dropWhile reIsSpace with
          | c :: rest =>
            if c.toLower = 'v' then
              (semverAt rest).map
                (fun m => m1 ++ sp1 ++ '-' :: (sp2 ++ c :: m))
            else none
          | [] => none
      | _ => none

/-- Leftmost search: try the matcher at every position, left to right.  This
is `regexp.FindString` / the position scan of `FindStringSubmatch`. -/
def findRe (p : List Char → Option (List Char)) : List Char → Option (List Char)
  | [] => p []
  | c :: cs =>
    match p (c :: cs) with
    | some m => some m
    | none => findRe p cs

/-- `regexp.FindStringSubmatch` for pattern 2.  The pattern has no capture
groups, so on a match the returned slice holds exactly the full match
(length 1) and on no match it is nil (length 0). -/
def amassSubmatch (l : List Char) : List (List Char) :=
  match findRe amassAt l with
  | some m => [m]
  | none => []

/-! ## extractVersion -/

/-- The clean-up applied in the simple-pattern branch of `extractVersion`
(installer.go, the `else` arm): strip an `amass - ` prefix and a leading `v`
when the match contains `amass - `, else strip a leading `go`. -/
def cleanMatch (m : List Char) : List Char :=
  if containsSeq ['a', 'm', 'a', 's', 's', ' ', '-', ' '] m then
    goTrimPre (goTrimPre m ['a', 'm', 'a', 's', 's', ' ', '-', ' ']) ['v']
  else if ['g', 'o'].isPrefixOf m then goTrimPre m ['g', 'o']
  else m

/-- Go `strings.Split(l, "\n")[0]`: `Split` always returns at least one
element, so this is the text before the first newline (the final
`return ""` of the Go function is unreachable). -/
def firstLine (l : List Char) : List Char := (l.splitOn '\n').headD []

/-- The pattern cascade of `extractVersion`, applied to the already trimmed
text.  The Go loop dispatches on `strings.Contains(pattern, "(")`:
patterns 1, 2 and 6 (which contain `(`, pattern 2 only via its `(?i)` flag)
take the `FindStringSubmatch`/`len(match) > 1` branch, patterns 3, 4 and 5
take the `FindString` branch with `cleanMatch` applied. -/
def extractVersionFrom (version : List Char) : List Char :=
  match findRe versionVGroupAt version with  -- pattern 1, match[1]
  | some g => g
  | none =>
    match amassSubmatch version with         -- pattern 2: needs len(match) > 1
    | _ :: g :: _ => g
    | _ =>
      match findRe vSemverAt version with    -- pattern 3
      | some m => cleanMatch m
      | none =>
        match findRe semverAt version with   -- pattern 4
        | some m => cleanMatch m
        | none =>
          match findRe goSemverAt version with  -- pattern 5
          | some m => cleanMatch m
          | none =>
            match findRe versionColonAt version with  -- pattern 6, match[1]
            | some g => g
            | none => firstLine version      -- first-line fallback

/-- `extractVersion` of installer.go: trim, then run the pattern cascade. -/
def extractVersion (output : String) : String :=
  ⟨extractVersionFrom (goTrimSpace output.data)⟩

/-- The same cascade with the two dead patterns (5: `go\d+\.\d+\.\d+`,
6: `Version: (v\d+\.\d+\.\d+)`) removed — the comparison point of the
refinement claim that those patterns are unreachable. -/
def extractVersionFromAlt (version : List Char) : List Char :=
  match findRe versionVGroupAt version with
  | some g => g
  | none =>
    match amassSubmatch version with
    | _ :: g :: _ => g
    | _ =>
      match findRe vSemverAt version with
      | some m => cleanMatch m
      | none =>
        match findRe semverAt version with
        | some m => cleanMatch m
        | none => firstLine version

/-- `extractVersion` with patterns 5 and 6 removed. -/
def extractVersionAlt (output : String) : String :=
  ⟨extractVersionFromAlt (goTrimSpace output.data)⟩

end DevToolsInstaller

namespace DevToolsInstaller

/-! ## Command-line substitution helpers of `installTool` -/

/-- Go `os.Expand` / `getShellName`: is `c` a shell special variable
character (`internal/config`-independent, from os/env.go). -/
def isShellSpecialVar (c : Char) : Bool :=
  c = '*' ∨ c = '#' ∨ c = '$' ∨ c = '@' ∨ c = '!' ∨ c = '?' ∨ c = '-' ∨
  ('0' ≤ c ∧ c ≤ '9')

/-- Go os/env.go `isAlphaNum`. -/
def isAlphaNum (c : Char) : Bool :=
  c = '_' ∨ ('0' ≤ c ∧ c ≤ '9') ∨ ('a' ≤ c ∧ c ≤ 'z') ∨ ('A' ≤ c ∧ c ≤ 'Z')

/-- Go os/env.go `getShellName`, on the text following a `$`: returns the
referenced name and the number of characters consumed.  An empty name with
positive width is Go's "bad syntax, eat the characters"; an empty name with
width 0 leaves the dollar sign untouched. -/
def getShellName (s : List Char) : List Char × Nat :=
  match s with
  | [] => ([], 0)
  | '{' :: rest =>
    match rest with
    | c1 :: '}' :: _ =>
      if isShellSpecialVar c1 then ([c1], 3)
      else
        match rest.findIdx? (fun c => c = '}') with
        | none => ([], 1)
        | some 0 => ([], 2)
        | some k => (rest.take k, k + 2)
    | _ =>
      match rest.findIdx? (fun c => c = '}') with
      | none => ([], 1)
      | some 0 => ([], 2)
      | some k => (rest.take k, k + 2)
  | c :: _ =>
    if isShellSpecialVar c then ([c], 1)
    else (s.takeWhile isAlphaNum, (s.takeWhile isAlphaNum).length)

/-- Go `os.Expand` with mapping `os.Getenv`, written as a character scan
(the Go original batches copies between `$` signs; the output is the same).
The fuel argument is the input length; each step consumes at least one
character, so the `0, l => l` guard is never reached from `expandEnvCore`. -/
def expandAux (mapping : List Char → List Char) : Nat → List Char → List Char
  | _, [] => []
  | 0, l => l
  | fuel + 1, '$' :: rest =>
    match rest with
    | [] => ['$']  -- Go: `j+1 < len(s)` fails, the final `$` is copied as is
    | _ :: _ =>
      let nw := getShellName rest
      let repl :=
        if nw.1.isEmpty ∧ 0 < nw.2 then []         -- bad syntax: eat it
        else if nw.1.isEmpty then ['$']            -- keep the dollar sign
        else mapping nw.1                          -- substitute the variable
      repl ++ expandAux mapping fuel (rest.drop nw.2)
  | fuel + 1, c :: t => c :: expandAux mapping fuel t

/-- Go `os.ExpandEnv`: every `$var` / `${var}` reference is replaced by the
environment's value (empty for unset variables, as `os.Getenv` reports). -/
def expandEnv (getenv : String → String) (s : String) : String :=
  ⟨expandAux (fun nm => (getenv ⟨nm⟩).data) s.data.length s.data⟩

/-- Go `strings.ReplaceAll s old new` for nonempty `old` (the one use site
has `old = "${version}"`; Go's special case for an empty `old` is therefore
not exercised and not modelled).  Fuel is the input length; each step
consumes at least one character. -/
def replaceAllAux (old new : List Char) : Nat → List Char → List Char
  | _, [] => []
  | 0, l => l
  | fuel + 1, c :: t =>
    if old ≠ [] ∧ old.isPrefixOf (c :: t) then
      new ++ replaceAllAux old new fuel ((c :: t).drop old.length)
    else c :: replaceAllAux old new fuel t

/-- Go `strings.ReplaceAll`. -/
def replaceAll (s old new : String) : String :=
  ⟨replaceAllAux old.data new.data s.data.length s.data⟩

/-- Go `strings.Fields`: split around runs of white space. -/
def fields (s : String) : List String :=
  ((s.data.splitOnP goIsSpace).filter (fun w => !w.isEmpty)).map
    (fun w => (⟨w⟩ : String))

/-! ## Configuration model (internal/config/config.go) -/

/-- `config.InstallMethod`. -/
structure InstallMethod where
  name : String
  commands : List String
deriving DecidableEq

/-- `config.ToolConfig`.  The `dependencies` field is carried but, as in the
source, never read by the installer logic. -/
structure ToolConfig where
  dependencies : List String
  version : String
  versionFlag : String
  methods : List InstallMethod
deriving DecidableEq

/-- `config.InstallerConfig`.  `tools` is the Go map `Tools`; a lookup of an
absent key yields the zero value of `*ToolConfig`, i.e. a nil pointer,
modelled as `none`. -/
structure InstallerConfig where
  toolList : List String
  tools : String → Option ToolConfig

/-! ## The process world

Everything the program observes from the operating system is collected in an
oracle record: search-path lookups, the environment, pipe creation, spawning
an installation command (with its exit code), and running `name flag` for a
version probe.  The oracle is a function of the argv / flag, so a given
invocation has a fixed outcome within one run; two runs may use different
oracles. -/

structure ExecEnv where
  /-- `exec.LookPath name` succeeds. -/
  lookPath : String → Bool
  /-- `os.Getenv` (empty string for unset variables). -/
  getenv : String → String
  /-- `execCmd.StdoutPipe` and `execCmd.StderrPipe` both succeed for this argv. -/
  pipesOk : List String → Bool
  /-- `execCmd.Start` then `execCmd.Wait` for this argv: `none` is a Start
  error, `some code` an exit with that code (`execCmd.Wait` returns a nil
  error exactly for code 0). -/
  startCmd : List String → Option Nat
  /-- `exec.Command(name, flag).CombinedOutput()`: `none` is a spawn error or
  non-zero exit, `some out` the captured combined output. -/
  probe : String → String → Option String

/-- Observable side effects of a run: a version probe of `tool` with `flag`,
or the invocation (a `Start` attempt) of an installation command `argv` for
`tool` under the named method. -/
inductive Event where
  | probeCall (tool : String) (flag : String)
  | install (tool : String) (method : String) (argv : List String)
deriving DecidableEq

/-- Outcome of the inner command loop of `installTool` over one method's
command list. -/
inductive CmdStep where
  /-- some command exited zero: `installTool` returns nil on the spot -/
  | success
  /-- the loop ran off the end of the command list: try the next method -/
  | fellThrough
  /-- a pipe could not be created: `installTool` returns this error -/
  | pipeFailed (msg : String)
deriving DecidableEq

/-! ## installTool (installer.go) -/

/-- The inner `for _, command := range method.Commands` loop of
`installTool`.  Per command: `os.ExpandEnv`, then (when the tool declares a
version) `strings.ReplaceAll(command, "${version}", version)`, then
`strings.Fields`; an empty field list `continue`s to the next command; pipe
creation failure makes `installTool` return an error; a `Start` error or a
non-zero exit logs and `continue`s to the next command of the same method;
a zero exit makes `installTool` `return nil` immediately. -/
def runCommands (env : ExecEnv) (tc : ToolConfig) (tool mName : String) :
    List String → List Event × CmdStep
  | [] => ([], CmdStep.fellThrough)
  | command :: rest =>
    let c1 := expandEnv env.getenv command
    let c2 := if tc.version ≠ "" then replaceAll c1 "${version}" tc.version else c1
    let parts := fields c2
    if parts.isEmpty then runCommands env tc tool mName rest
    else if !env.pipesOk parts then ([], CmdStep.pipeFailed "failed to create stdout pipe")
    else
      match env.startCmd parts with
      | none =>
        let r := runCommands env tc tool mName rest
        (Event.install tool mName parts :: r.1, r.2)
      | some 0 => ([Event.install tool mName parts], CmdStep.success)
      | some (_ + 1) =>
        let r := runCommands env tc tool mName rest
        (Event.install tool mName parts :: r.1, r.2)

/-- The outer `for _, method := range toolConfig.Methods` loop of
`installTool`. -/
def tryMethods (env : ExecEnv) (tc : ToolConfig) (tool : String) :
    List InstallMethod → List Event × Except String Unit
  | [] => ([], Except.error ("all installation methods failed for " ++ tool))
  | m :: ms =>
    let r := runCommands env tc tool m.name m.commands
    match r.2 with
    | CmdStep.success => (r.1, Except.ok ())
    | CmdStep.pipeFailed msg => (r.1, Except.error msg)
    | CmdStep.fellThrough =>
      let r2 := tryMethods env tc tool ms
      (r.1 ++ r2.1, r2.2)

/-- `installTool`: a nil `toolConfig` or an empty method list is the
"no installation methods available" error; otherwise the methods are tried
in order. -/
def installTool (env : ExecEnv) (cfg : InstallerConfig) (name : String) :
    List Event × Except String Unit :=
  match cfg.tools name with
  | none => ([], Except.error ("no installation methods available for " ++ name))
  | some tc =>
    if tc.methods.isEmpty then
      ([], Except.error ("no installation methods available for " ++ name))
    else tryMethods env tc name tc.methods

/-! ## Version detection (getToolVersion / checkTool) -/

/-- The fixed priority list of version query flags of `getToolVersion`. -/
def versionFlags : List String :=
  ["--version", "-version", "version", "-v", "-V", "--ver", "-ver"]

/-- The `for _, flag := range versionFlags` loop of `getToolVersion`,
carrying the `version` accumulator variable: a failed probe keeps the
accumulator, a successful probe stores `extractVersion` of the output and
breaks when it is nonempty. -/
def probeLoop (env : ExecEnv) (name : String) (version : String) :
    List String → List Event × String
  | [] => ([], version)
  | flag :: rest =>
    match env.probe name flag with
    | none =>
      let r := probeLoop env name version rest
      (Event.probeCall name flag :: r.1, r.2)
    | some out =>
      let v := extractVersion out
      if v ≠ "" then ([Event.probeCall name flag], v)
      else
        let r := probeLoop env name v rest
        (Event.probeCall name flag :: r.1, r.2)

/-- `getToolVersion`.  Its first statement reads
`i.config.Tools[name].Version`; when the map has no entry for `name` the
lookup yields a nil pointer and the field access panics — the `none` result.
Otherwise a declared nonempty version is returned verbatim with no
invocation; else the probe loop runs over the flag list (replaced by the
single configured `version_flag` when one is set). -/
def getToolVersion (env : ExecEnv) (cfg : InstallerConfig) (name : String) :
    List Event × Option String :=
  match cfg.tools name with
  | none => ([], none)
  | some tc =>
    if tc.version ≠ "" then ([], some tc.version)
    else
      let flags := if tc.versionFlag ≠ "" then [tc.versionFlag] else versionFlags
      let r := probeLoop env name "" flags
      (r.1, some r.2)

/-- `checkTool`: a failed `exec.LookPath` reports "not installed" (`false`);
otherwise the tool is reported installed whether or not a version was found.
`none` propagates the `getToolVersion` panic. -/
def checkTool (env : ExecEnv) (cfg : InstallerConfig) (name : String) :
    List Event × Option Bool :=
  if env.lookPath name = false then ([], some false)
  else
    let r := getToolVersion env cfg name
    match r.2 with
    | none => (r.1, none)
    | some _ => (r.1, some true)

/-! ## Run and the process exit code -/

/-- The `for _, name := range i.config.ToolList` loop of `Run`: count a tool
as installed when `checkTool` reports it present or `installTool` returns
nil; an `installTool` error is printed and the loop continues.  `none`
propagates a panic, aborting the pass. -/
def runLoop (env : ExecEnv) (cfg : InstallerConfig) :
    List String → List Event × Option Nat
  | [] => ([], some 0)
  | name :: rest =>
    let c := checkTool env cfg name
    match c.2 with
    | none => (c.1, none)
    | some true =>
      let r := runLoop env cfg rest
      (c.1 ++ r.1, r.2.map (· + 1))
    | some false =>
      let inst := installTool env cfg name
      let r := runLoop env cfg rest
      match inst.2 with
      | Except.ok _ => (c.1 ++ inst.1 ++ r.1, r.2.map (· + 1))
      | Except.error _ => (c.1 ++ inst.1 ++ r.1, r.2)

/-- `Installer.Run`: the trace of invocations and, unless a panic aborted the
pass, the number of tools counted installed (the Go function itself always
returns a nil error). -/
def Run (env : ExecEnv) (cfg : InstallerConfig) : List Event × Option Nat :=
  runLoop env cfg cfg.toolList

/-- `main`: exit status of the process.  `LoadConfig` failure (`none`) is
`os.Exit(1)`; otherwise `Run` always returns nil, so the process exits 0 —
unless the run panicked, in which case the Go runtime terminates the process
with status 2. -/
def mainExit (loaded : Option InstallerConfig) (env : ExecEnv) : Nat :=
  match loaded with
  | none => 1
  | some cfg =>
    match (Run env cfg).2 with
    | none => 2
    | some _ => 0

end DevToolsInstaller

namespace DevToolsInstaller

/-! ## The fifth and sixth patterns are unreachable

Whatever `go\d+\.\d+\.\d+` matches contains a `\d+\.\d+\.\d+` match two
characters in, and whatever `Version: (v\d+\.\d+\.\d+)` matches contains a
`v\d+\.\d+\.\d+` match nine characters in; the cascade only reaches
patterns 5 and 6 after patterns 4 and 3 respectively failed on the whole
text, so patterns 5 and 6 can never fire. -/

theorem findRe_cons (p : List Char → Option (List Char)) (c : Char) (cs : List Char) :
    findRe p (c :: cs) = none ↔ p (c :: cs) = none ∧ findRe p cs = none := by
  cases hp : p (c :: cs) <;> simp [findRe, hp]

theorem findRe_eq_none_iff (p : List Char → Option (List Char)) (l : List Char) :
    findRe p l = none ↔ ∀ t : List Char, t <:+ l → p t = none := by
  induction l with
  | nil => simp [findRe, List.suffix_nil]
  | cons c cs ih =>
    rw [findRe_cons, ih]
    constructor
    · rintro ⟨h1, h2⟩ t ht
      rcases List.suffix_cons_iff.mp ht with rfl | ht2
      · exact h1
      · exact h2 t ht2
    · intro h
      exact ⟨h _ (List.suffix_refl _),
        fun t ht => h t (List.suffix_cons_iff.mpr (Or.inr ht))⟩

theorem findRe_goSemver_none (v : List Char) (h : findRe semverAt v = none) :
    findRe goSemverAt v = none := by
  rw [findRe_eq_none_iff] at h ⊢
  intro t ht
  unfold goSemverAt
  split
  · rw [h _ ((List.drop_suffix 2 t).trans ht)]
    rfl
  · rfl

theorem findRe_versionColon_none (v : List Char) (h : findRe vSemverAt v = none) :
    findRe versionColonAt v = none := by
  rw [findRe_eq_none_iff] at h ⊢
  intro t ht
  unfold versionColonAt
  split
  · exact h _ ((List.drop_suffix 9 t).trans ht)
  · rfl

theorem extractVersionFrom_eq (v : List Char) :
    extractVersionFrom v = extractVersionFromAlt v := by
  unfold extractVersionFrom extractVersionFromAlt
  cases h1 : findRe versionVGroupAt v with
  | some g => rfl
  | none =>
    unfold amassSubmatch
    cases h2 : findRe amassAt v with
    | some m =>
      cases h3 : findRe vSemverAt v with
      | some m3 => rfl
      | none =>
        cases h4 : findRe semverAt v with
        | some m4 => rfl
        | none =>
          rw [findRe_goSemver_none v h4, findRe_versionColon_none v h3]
    | none =>
      cases h3 : findRe vSemverAt v with
      | some m3 => rfl
      | none =>
        cases h4 : findRe semverAt v with
        | some m4 => rfl
        | none =>
          rw [findRe_goSemver_none v h4, findRe_versionColon_none v h3]

end DevToolsInstaller


namespace DevToolsInstaller

/-! ## Totality of a run: no panic when every present tool is catalogued -/

theorem getToolVersion_isSome (env : ExecEnv) (cfg : InstallerConfig) (name : String)
    (h : (cfg.tools name).isSome) : (getToolVersion env cfg name).2.isSome := by
  unfold getToolVersion
  cases hc : cfg.tools name with
  | none => simp [hc] at h
  | some tc => by_cases hv : tc.version ≠ "" <;> simp [hv]

theorem checkTool_isSome (env : ExecEnv) (cfg : InstallerConfig) (name : String)
    (h : env.lookPath name = true → (cfg.tools name).isSome) :
    (checkTool env cfg name).2.isSome := by
  unfold checkTool
  by_cases hl : env.lookPath name = false
  · simp [hl]
  · have hl' : env.lookPath name = true := by
      cases hv : env.lookPath name
      · exact absurd hv hl
      · rfl
    have hg := getToolVersion_isSome env cfg name (h hl')
    rw [if_neg hl]
    cases hgg : (getToolVersion env cfg name).2 with
    | none => rw [hgg] at hg; simp at hg
    | some v => simp [hgg]

theorem runLoop_isSome (env : ExecEnv) (cfg : InstallerConfig) (names : List String)
    (h : ∀ n ∈ names, env.lookPath n = true → (cfg.tools n).isSome) :
    (runLoop env cfg names).2.isSome := by
  induction names with
  | nil => simp [runLoop]
  | cons name rest ih =>
    have hc := checkTool_isSome env cfg name (h name (by simp))
    have hr := ih (fun n hn => h n (by simp [hn]))
    unfold runLoop
    cases hcc : (checkTool env cfg name).2 with
    | none => rw [hcc] at hc; simp at hc
    | some b =>
      cases b
      · cases hi : (installTool env cfg name).2 <;> simp [hcc, hi, hr]
      · simp [hcc, hr]

/-! ## No installation command is ever invoked for a present tool -/

theorem probeLoop_no_install (env : ExecEnv) (nm : String) (flags : List String)
    (acc t m : String) (argv : List String) :
    Event.install t m argv ∉ (probeLoop env nm acc flags).1 := by
  induction flags generalizing acc with
  | nil => simp [probeLoop]
  | cons f rest ih =>
    simp only [probeLoop]
    cases hp : env.probe nm f with
    | none => simp [ih]
    | some out => by_cases hv : extractVersion out ≠ "" <;> simp [hv, ih]

theorem getToolVersion_no_install (env : ExecEnv) (cfg : InstallerConfig)
    (name t m : String) (argv : List String) :
    Event.install t m argv ∉ (getToolVersion env cfg name).1 := by
  unfold getToolVersion
  cases hc : cfg.tools name with
  | none => simp
  | some tc => by_cases hv : tc.version ≠ "" <;> simp [hv, probeLoop_no_install]

theorem checkTool_no_install (env : ExecEnv) (cfg : InstallerConfig)
    (name t m : String) (argv : List String) :
    Event.install t m argv ∉ (checkTool env cfg name).1 := by
  unfold checkTool
  by_cases hl : env.lookPath name = false
  · simp [hl]
  · rw [if_neg hl]
    cases hg : (getToolVersion env cfg name).2 <;>
      simp [hg, getToolVersion_no_install]

/-- Case analysis on the body of one `runCommands` step, with the computed
argv generalised. -/
theorem runCommandsStep_tag (env : ExecEnv) (tc : ToolConfig) (tool mName : String)
    (parts : List String) (rest : List String)
    (ih : ∀ e ∈ (runCommands env tc tool mName rest).1, ∃ a, e = Event.install tool mName a) :
    ∀ e ∈ (if parts.isEmpty then runCommands env tc tool mName rest
        else if (!env.pipesOk parts) = true then
          (([] : List Event), CmdStep.pipeFailed "failed to create stdout pipe")
        else
          match env.startCmd parts with
          | none =>
            (Event.install tool mName parts :: (runCommands env tc tool mName rest).1,
              (runCommands env tc tool mName rest).2)
          | some 0 => ([Event.install tool mName parts], CmdStep.success)
          | some (_ + 1) =>
            (Event.install tool mName parts :: (runCommands env tc tool mName rest).1,
              (runCommands env tc tool mName rest).2)).1,
      ∃ a, e = Event.install tool mName a := by
  by_cases h1 : parts.isEmpty
  · rw [if_pos h1]
    exact ih
  · rw [if_neg h1]
    by_cases h2 : (!env.pipesOk parts) = true
    · rw [if_pos h2]
      simp
    · rw [if_neg h2]
      cases hs : env.startCmd parts with
      | none =>
        intro e he
        rcases List.mem_cons.mp he with rfl | he2
        · exact ⟨parts, rfl⟩
        · exact ih e he2
      | some k =>
        cases k with
        | zero =>
          intro e he
          rcases List.mem_cons.mp he with rfl | he2
          · exact ⟨parts, rfl⟩
          · simp at he2
        | succ k =>
          intro e he
          rcases List.mem_cons.mp he with rfl | he2
          · exact ⟨parts, rfl⟩
          · exact ih e he2

theorem runCommands_tag (env : ExecEnv) (tc : ToolConfig) (tool mName : String)
    (cmds : List String) :
    ∀ e ∈ (runCommands env tc tool mName cmds).1, ∃ a, e = Event.install tool mName a := by
  induction cmds with
  | nil => simp [runCommands]
  | cons command rest ih =>
    show ∀ e ∈ (runCommands env tc tool mName (command :: rest)).1, _
    rw [runCommands]
    exact runCommandsStep_tag env tc tool mName _ rest ih

theorem tryMethods_tag (env : ExecEnv) (tc : ToolConfig) (tool : String)
    (ms : List InstallMethod) :
    ∀ e ∈ (tryMethods env tc tool ms).1, ∃ mn a, e = Event.install tool mn a := by
  induction ms with
  | nil => simp [tryMethods]
  | cons m ms ih =>
    simp only [tryMethods]
    cases hr : (runCommands env tc tool m.name m.commands).2 with
    | success =>
      intro e he
      obtain ⟨a, ha⟩ := runCommands_tag env tc tool m.name m.commands e he
      exact ⟨m.name, a, ha⟩
    | pipeFailed msg =>
      intro e he
      obtain ⟨a, ha⟩ := runCommands_tag env tc tool m.name m.commands e he
      exact ⟨m.name, a, ha⟩
    | fellThrough =>
      intro e he
      rcases List.mem_append.mp he with he1 | he2
      · obtain ⟨a, ha⟩ := runCommands_tag env tc tool m.name m.commands e he1
        exact ⟨m.name, a, ha⟩
      · exact ih e he2

theorem installTool_tag (env : ExecEnv) (cfg : InstallerConfig) (name : String) :
    ∀ e ∈ (installTool env cfg name).1, ∃ mn a, e = Event.install name mn a := by
  unfold installTool
  cases hc : cfg.tools name with
  | none => simp
  | some tc =>
    show ∀ e ∈ (if tc.methods.isEmpty then
        (([] : List Event),
          (Except.error ("no installation methods available for " ++ name) : Except String Unit))
      else tryMethods env tc name tc.methods).1, ∃ mn a, e = Event.install name mn a
    by_cases hm : tc.methods.isEmpty
    · rw [if_pos hm]
      simp
    · rw [if_neg hm]
      exact tryMethods_tag env tc name tc.methods

theorem checkTool_false_lookPath (env : ExecEnv) (cfg : InstallerConfig) (name : String)
    (h : (checkTool env cfg name).2 = some false) : env.lookPath name = false := by
  by_cases hl : env.lookPath name = false
  · exact hl
  · exfalso
    unfold checkTool at h
    rw [if_neg hl] at h
    cases hg : (getToolVersion env cfg name).2 <;> simp [hg] at h

theorem runLoop_install_lookPath (env : ExecEnv) (cfg : InstallerConfig)
    (names : List String) (t m : String) (argv : List String)
    (h : Event.install t m argv ∈ (runLoop env cfg names).1) :
    env.lookPath t = false := by
  induction names with
  | nil => simp [runLoop] at h
  | cons name rest ih =>
    simp only [runLoop] at h
    cases hcc : (checkTool env cfg name).2 with
    | none =>
      rw [hcc] at h
      exact absurd h (checkTool_no_install env cfg name t m argv)
    | some b =>
      rw [hcc] at h
      cases b
      · cases hi : (installTool env cfg name).2 with
        | ok u =>
          rw [hi] at h
          rcases List.mem_append.mp h with h12 | h3
          · rcases List.mem_append.mp h12 with h1 | h2
            · exact absurd h1 (checkTool_no_install env cfg name t m argv)
            · obtain ⟨mn, a, ha⟩ := installTool_tag env cfg name _ h2
              injection ha with hteq hmeq haeq
              rw [hteq]
              exact checkTool_false_lookPath env cfg name hcc
          · exact ih h3
        | error msg =>
          rw [hi] at h
          rcases List.mem_append.mp h with h12 | h3
          · rcases List.mem_append.mp h12 with h1 | h2
            · exact absurd h1 (checkTool_no_install env cfg name t m argv)
            · obtain ⟨mn, a, ha⟩ := installTool_tag env cfg name _ h2
              injection ha with hteq hmeq haeq
              rw [hteq]
              exact checkTool_false_lookPath env cfg name hcc
          · exact ih h3
      · rcases List.mem_append.mp h with h1 | h2
        · exact absurd h1 (checkTool_no_install env cfg name t m argv)
        · exact ih h2

end DevToolsInstaller

namespace DevToolsInstaller

/-! ## Concrete scenarios used by the claim theorems -/

/-- World in which nothing is on the search path, the environment is empty,
pipes always succeed and every spawned command exits zero. -/
def envFirstZero : ExecEnv :=
  ⟨fun _ => false, fun _ => "", fun _ => true, fun _ => some 0, fun _ _ => none⟩

/-- World identical to `envFirstZero` except that the command `c1` exits
with status 1 while every other command exits zero. -/
def envFirstFails : ExecEnv :=
  ⟨fun _ => false, fun _ => "", fun _ => true,
    fun argv => if argv = ["c1"] then some 1 else some 0, fun _ _ => none⟩

/-- A catalog with a single tool `t` whose single method `m` lists the two
commands `c1` and `c2`, in that order. -/
def cfgTwoCmds : InstallerConfig :=
  ⟨["t"], fun n => if n = "t" then some ⟨[], "", "", [⟨"m", ["c1", "c2"]⟩]⟩ else none⟩

/-- A catalog with tool `go`, declared fixed version `1.23.3`, and one
method whose single command uses the `${version}` placeholder. -/
def cfgGoTar : InstallerConfig :=
  ⟨["go"], fun n =>
    if n = "go" then
      some ⟨[], "1.23.3", "", [⟨"binary", ["tar -xzf go${version}.tar.gz"]⟩]⟩
    else none⟩

/-- A catalog whose `tools` mapping has no entries at all, with `ghost` in
the tool list. -/
def cfgGhost : InstallerConfig := ⟨["ghost"], fun _ => none⟩

/-- World in which every executable is on the search path. -/
def envAllPresent : ExecEnv :=
  ⟨fun _ => true, fun _ => "", fun _ => true, fun _ => some 0, fun _ _ => none⟩

/-- A catalog whose single tool `t` declares a fixed version. -/
def cfgFixedTool : InstallerConfig := ⟨["t"], fun _ => some ⟨[], "1.0.0", "", []⟩⟩

/-! ## The claims -/

/-- Claim C1: the spec requires that an installation method is reported as
succeeded only if every command of the method was executed and exited zero,
in order, success being declared only after the last command.  The code
instead has its `return nil` inside the inner command loop, so the very
first command that exits zero ends the installation as succeeded: in a
world where every command exits zero, the method `m` with commands
`[c1, c2]` reports success after invoking only `c1`; `c2` is never
invoked. -/
theorem installTool_success_after_first_command :
    installTool envFirstZero cfgTwoCmds "t" =
      ([Event.install "t" "m" ["c1"]], Except.ok ()) := rfl

/-- Claim C2: the spec requires that after a failed command the remaining
commands of the same method are skipped and the next method is tried.  The
code instead `continue`s to the next command of the same method: with
commands `[c1, c2]` where `c1` exits 1, the trace shows `c2` being invoked
right after `c1` — and its zero exit even makes the whole installation
report success. -/
theorem installTool_continues_after_failed_command :
    installTool envFirstFails cfgTwoCmds "t" =
      ([Event.install "t" "m" ["c1"], Event.install "t" "m" ["c2"]],
        Except.ok ()) := rfl

/-- Claim C3: the spec requires the executed argv to be the template with
`${version}` replaced by the declared version (token `go1.23.3.tar.gz`).
The code runs `os.ExpandEnv` first, which consumes `${version}` as a
reference to the (unset) environment variable `version` and replaces it
with the empty string, so the dedicated `strings.ReplaceAll` never sees the
placeholder: the executed argv contains `go.tar.gz`, not
`go1.23.3.tar.gz`. -/
theorem installTool_version_placeholder_lost :
    installTool envFirstZero cfgGoTar "go" =
      ([Event.install "go" "binary" ["tar", "-xzf", "go.tar.gz"]], Except.ok ())
    ∧ "go1.23.3.tar.gz" ∉ ["tar", "-xzf", "go.tar.gz"] :=
  ⟨rfl, by decide⟩

/-- Claim C4: of the six reference samples, five evaluate as the spec says,
but `"amass - v4.5.6"` yields `"v4.5.6"`, not the specified `"4.5.6"`: the
`(?i)` flag makes the amass pattern contain `(`, routing it through the
capture-group branch, which requires a capture group the pattern does not
have, so the amass pattern never returns and the bare `v\d+\.\d+\.\d+`
pattern wins without the prefix stripping. -/
theorem extractVersion_reference_samples :
    extractVersion "version v1.2.3" = "v1.2.3" ∧
    extractVersion "amass - v4.5.6" = "v4.5.6" ∧
    extractVersion "go1.23.3 linux/amd64" = "1.23.3" ∧
    extractVersion "Version: v2.0.0" = "v2.0.0" ∧
    extractVersion "hello world" = "hello world" ∧
    extractVersion "" = "" ∧
    extractVersion "amass - v4.5.6" ≠ "4.5.6" := by
  refine ⟨?_, ?_, ?_, ?_, ?_, ?_, ?_⟩ <;> decide

/-- Claim C5: the spec requires inputs of the form `amass - vX.Y.Z`
(case-insensitively) to come back with the `amass - ` prefix and the
leading `v` stripped.  In the code the amass pattern can never return (see
C4), so such inputs fall through to the bare `v\d+\.\d+\.\d+` pattern and
the `v` (and any unusual casing of the prefix) is not treated specially:
both `"amass - v9.8.7"` and `"Amass - v9.8.7"` yield `"v9.8.7"`, not
`"9.8.7"`. -/
theorem extractVersion_amass_not_stripped :
    extractVersion "amass - v9.8.7" = "v9.8.7" ∧
    extractVersion "Amass - v9.8.7" = "v9.8.7" ∧
    extractVersion "amass - v9.8.7" ≠ "9.8.7" := by
  refine ⟨?_, ?_, ?_⟩ <;> decide

/-- Claim C6: when a tool is resolvable on the search path but the catalog
has no entry for it, `getToolVersion`'s first statement dereferences a nil
`*ToolConfig` and panics (modelled as the `none` outcome), so detection is
total exactly under the precondition that every present tool in the tool
list has a catalog entry — under that precondition a whole run completes
without panic. -/
theorem detection_partial_without_catalog_entry :
    (∀ (env : ExecEnv) (cfg : InstallerConfig) (name : String),
        env.lookPath name = true → cfg.tools name = none →
        checkTool env cfg name = ([], none)) ∧
    (∀ (env : ExecEnv) (cfg : InstallerConfig),
        (∀ n ∈ cfg.toolList, env.lookPath n = true → (cfg.tools n).isSome) →
        (Run env cfg).2.isSome) := by
  constructor
  · intro env cfg name hl hc
    have hg : getToolVersion env cfg name = ([], none) := by
      unfold getToolVersion
      rw [hc]
    unfold checkTool
    rw [if_neg (by simp [hl]), hg]
  · intro env cfg h
    exact runLoop_isSome env cfg cfg.toolList h

/-- Witness for C6: in a world where everything is on the search path,
`ghost` with an empty catalog panics, while a fully catalogued tool list
completes. -/
theorem detection_partial_without_catalog_entry_witness :
    checkTool envAllPresent cfgGhost "ghost" = ([], none) ∧
    (Run envAllPresent cfgFixedTool).2.isSome :=
  ⟨detection_partial_without_catalog_entry.1 envAllPresent cfgGhost "ghost" rfl rfl,
    detection_partial_without_catalog_entry.2 envAllPresent cfgFixedTool (by decide)⟩

/-- Claim C7: for a tool whose catalog entry declares a nonempty fixed
version, `getToolVersion` returns that string verbatim and the trace is
empty — the executable is never invoked with any version-query flag. -/
theorem getToolVersion_fixed_version (env : ExecEnv) (cfg : InstallerConfig)
    (name : String) (tc : ToolConfig) (hc : cfg.tools name = some tc)
    (hv : tc.version ≠ "") :
    getToolVersion env cfg name = ([], some tc.version) := by
  unfold getToolVersion
  simp only [hc]
  rw [if_pos hv]

/-- Witness for C7 at the concrete `t`/`1.0.0` configuration. -/
theorem getToolVersion_fixed_version_witness :
    getToolVersion envAllPresent cfgFixedTool "t" = ([], some "1.0.0") :=
  getToolVersion_fixed_version envAllPresent cfgFixedTool "t"
    ⟨[], "1.0.0", "", []⟩ rfl (by decide)

/-- Counterexample to claim C8 as stated: with tool list `[ghost]`, `ghost`
resolvable on the search path but absent from the catalog's tools mapping,
the configuration loads fine yet the run panics in `getToolVersion`, the
pass over the tool list is not completed, and the process terminates with
the Go runtime's panic status 2 — not 0. -/
theorem mainExit_not_zero_on_uncataloged_present_tool :
    mainExit (some cfgGhost) envAllPresent ≠ 0 ∧
    mainExit (some cfgGhost) envAllPresent = 2 := by
  refine ⟨?_, rfl⟩
  decide

/-- Claim C8 (amended): provided every tool of the tool list that is
resolvable on the search path has an entry in the catalog's tools mapping,
the process completes one pass over the whole tool list and exits 0
whatever the individual detect/install outcomes; and it exits 1 exactly
when the configuration file could not be read or parsed. -/
theorem mainExit_zero_unless_config_error (loaded : Option InstallerConfig)
    (env : ExecEnv)
    (h : ∀ cfg, loaded = some cfg →
        ∀ n ∈ cfg.toolList, env.lookPath n = true → (cfg.tools n).isSome) :
    (∀ cfg, loaded = some cfg → (Run env cfg).2.isSome ∧ mainExit loaded env = 0) ∧
    (mainExit loaded env = 1 ↔ loaded = none) := by
  cases loaded with
  | none => simp [mainExit]
  | some cfg =>
    have hs := runLoop_isSome env cfg cfg.toolList (h cfg rfl)
    constructor
    · intro cfg2 h2
      injection h2 with h2
      subst h2
      refine ⟨hs, ?_⟩
      unfold mainExit Run
      cases hv : (runLoop env cfg cfg.toolList).2 with
      | none => rw [hv] at hs; simp at hs
      | some k => simp [hv]
    · unfold mainExit Run
      cases hv : (runLoop env cfg cfg.toolList).2 with
      | none => rw [hv] at hs; simp at hs
      | some k => simp [hv]

/-- Witness for C8 (amended) at a fully catalogued configuration. -/
theorem mainExit_zero_unless_config_error_witness :
    (Run envAllPresent cfgFixedTool).2.isSome ∧
    mainExit (some cfgFixedTool) envAllPresent = 0 :=
  (mainExit_zero_unless_config_error (some cfgFixedTool) envAllPresent
    (by intro cfg hcfg; injection hcfg with h; subst h; decide)).1 cfgFixedTool rfl

/-- Claim C9: a tool resolvable on the search path at the start of a run is
reported present by `checkTool`, so `installTool` never runs for it and no
installation command tagged with it ever appears in the run's trace;
consequently two consecutive runs (with possibly different worlds, the tool
being present in both) invoke no installation command for it on either
run. -/
theorem run_present_tool_no_install (cfg : InstallerConfig) (env1 env2 : ExecEnv)
    (name : String) (h1 : env1.lookPath name = true) (h2 : env2.lookPath name = true) :
    (∀ mn argv, Event.install name mn argv ∉ (Run env1 cfg).1) ∧
    (∀ mn argv, Event.install name mn argv ∉ (Run env2 cfg).1) := by
  refine ⟨fun mn argv hmem => ?_, fun mn argv hmem => ?_⟩
  · exact absurd (runLoop_install_lookPath env1 cfg cfg.toolList name mn argv hmem)
      (by simp [h1])
  · exact absurd (runLoop_install_lookPath env2 cfg cfg.toolList name mn argv hmem)
      (by simp [h2])

/-- Witness for C9: two identical runs over a present, catalogued tool. -/
theorem run_present_tool_no_install_witness :
    (∀ mn argv, Event.install "t" mn argv ∉ (Run envAllPresent cfgFixedTool).1) ∧
    (∀ mn argv, Event.install "t" mn argv ∉ (Run envAllPresent cfgFixedTool).1) :=
  run_present_tool_no_install cfgFixedTool envAllPresent envAllPresent "t" rfl rfl

/-- Claim C10: `extractVersion` never returns through its fifth
(`go\d+\.\d+\.\d+`) or sixth (`Version: (v\d+\.\d+\.\d+)`) pattern: any
text the fifth matches is matched by the earlier bare `\d+\.\d+\.\d+`
pattern and any text the sixth matches is matched by the earlier bare
`v\d+\.\d+\.\d+` pattern, so the function is extensionally equal to the
variant with patterns 5 and 6 removed. -/
theorem extractVersion_eq_without_dead_patterns (s : String) :
    extractVersion s = extractVersionAlt s := by
  unfold extractVersion extractVersionAlt
  rw [extractVersionFrom_eq]

end DevToolsInstaller
